import Mathlib

/-!
Verification of the `unit_converter` module (file `unit_converter.py`).

The Python source is shallowly embedded below.  Python floats are modelled
as exact rationals (`ℚ`) where the program manipulates exponents, and as real
numbers (`ℝ`) where it computes conversion multipliers with `**` (modelled by
`Real.rpow`).  Python's typed `NameError` failures and its untyped crashes
(`TypeError` from subscripting `None`, `KeyError` from a missing dict key,
`ZeroDivisionError`) are modelled by the error type `UErr`; the mutable
module-level `_conversion_factor_cache` dict is threaded explicitly as an
association list.
-/

namespace UnitConv

/-- Errors the Python code can raise.  The first four are the deliberate,
typed `NameError`s of the source; the last three model untyped crashes
(`TypeError` from `None[...]`, `KeyError`, `ZeroDivisionError`). -/
inductive UErr where
  | invalidChar (c : Char)
  | unbalancedBrackets
  | unknownUnit (tok : String)
  | incompatibleUnits
  | typeErrorNoneSubscript
  | keyError (tok : String)
  | zeroDivisionError
  deriving DecidableEq, Repr

/-- `[a-zA-Z]` of the source's regexes. -/
def isLetterChar (c : Char) : Bool :=
  ('a' ≤ c && c ≤ 'z') || ('A' ≤ c && c ≤ 'Z')

/-- `[0-9]` of the source's regexes. -/
def isDigitChar (c : Char) : Bool :=
  '0' ≤ c && c ≤ '9'

/-- The character alphabet accepted by `_ensure_si_unit`
(regex `[^a-zA-Z0-9/*\^\(\)\[\] ]` finds a character outside this set). -/
def allowedChar (c : Char) : Bool :=
  isLetterChar c || isDigitChar c || c = '/' || c = '*' || c = '^' ||
    c = '(' || c = ')' || c = '[' || c = ']' || c = ' '

/-- `UNITS_SI` of the source, in the order of the set literal.  (Python set
iteration order is unspecified; theorem `c3_registry_resolution` below shows
the lookup result is the order-independent exact-then-prefixed resolution, so
fixing the literal order loses nothing.) -/
def UNITS_SI : List String :=
  ["s", "m", "g", "A", "K", "mol", "cd", "rad", "sr", "Hz", "N", "Pa", "J",
   "W", "C", "V", "F", "Ohm", "S", "Wb", "T", "H", "Celsius", "lm", "lx",
   "Bq", "Gy", "Sv", "kat"]

/-- `PREFIX_SI` of the source. -/
def PREFIX_SI : List (String × ℚ) :=
  [("f", 1e-15), ("p", 1e-12), ("n", 1e-9), ("mu", 1e-6), ("m", 1e-3),
   ("c", 1e-2), ("d", 1e-1), ("da", 1e1), ("h", 1e2), ("k", 1e3),
   ("M", 1e6), ("G", 1e9), ("T", 1e12), ("P", 1e15)]

/-- `NON_SI_MAP` of the source: unit name ↦ (base expression, multiplier). -/
def NON_SI_MAP : List (String × (String × ℚ)) :=
  [("in", ("m", 0.0254)), ("ft", ("m", 0.3048)), ("yd", ("m", 0.9144)),
   ("mi", ("m", 1609.344)), ("gr", ("g", 0.06479891)),
   ("oz", ("g", 28.3495231)), ("qr", ("g", 11339.80925)),
   ("qtr", ("g", 11339.80925)), ("st", ("g", 6350.29318)),
   ("lb", ("g", 453.59237)), ("t", ("g", 907184.74)),
   ("floz", ("m^3", 2.95735296e-5)), ("gi", ("m^3", 1.18294118e-4)),
   ("pt", ("m^3", 4.73176473e-4)), ("qt", ("m^3", 9.46352946e-4)),
   ("gal", ("m^3", 3.78541178)), ("acre", ("m^2", 4046.85642)),
   ("h", ("s", 3600)), ("lightyear", ("m", 9.4605284e15)),
   ("l", ("m^3", 0.001))]

/-- First-match association-list lookup (Python dict membership / indexing). -/
def plookup {β : Type} : List (String × β) → String → Option β
  | [], _ => none
  | (k, v) :: r, s => if k = s then some v else plookup r s

/-- One iteration of the `for unit_si in UNITS_SI` loop body of
`_get_si_unit`: `re.search(unit_si + "$", unit)` succeeds iff `unit_si` is a
suffix of `unit`; a match starting at index 0 means `unit == unit_si`
(multiplier 1.0); otherwise the leading remainder `unit[:res.regs[0][0]]`
must be a recognized prefix.  A failed prefix lookup falls through to the
next candidate (`none`). -/
def siCandidate (u si : String) : Option (String × ℚ) :=
  if si.data.length ≤ u.data.length ∧
      si.data = u.data.drop (u.data.length - si.data.length) then
    if u.data.length = si.data.length then some (si, 1)
    else
      match plookup PREFIX_SI ⟨u.data.take (u.data.length - si.data.length)⟩ with
      | some q => some (si, q)
      | none => none
  else none

/-- First `some` produced by `f` along the list (the `return` inside the
Python `for` loop). -/
def firstSome {α β : Type} (f : α → Option β) : List α → Option β
  | [] => none
  | a :: l =>
    match f a with
    | some b => some b
    | none => firstSome f l

/-- `_get_si_unit`: try every base SI symbol as a suffix (returning on the
first hit), then fall back to `NON_SI_MAP`, else `None`. -/
def getSiUnit (u : String) : Option (String × ℚ) :=
  match firstSome (siCandidate u) UNITS_SI with
  | some r => some r
  | none => plookup NON_SI_MAP u

/-- Maximal `[a-zA-Z]+` runs of a character list, in order
(`re.finditer(r"[a-zA-Z]+", unit)`).  `cur` is the reversed run collected
so far. -/
def letterRunsAux (cur : List Char) : List Char → List String
  | [] => if cur.isEmpty then [] else [⟨cur.reverse⟩]
  | c :: cs =>
    if isLetterChar c then letterRunsAux (c :: cur) cs
    else if cur.isEmpty then letterRunsAux [] cs
    else String.mk cur.reverse :: letterRunsAux [] cs

def letterRuns (l : List Char) : List String :=
  letterRunsAux [] l

/-- `_ensure_si_unit`: reject the first character outside the alphabet, then
unbalanced bracket counts, then the first letter-run that the registry does
not resolve. -/
def ensureSiUnit (u : String) : Except UErr Unit :=
  match u.data.find? (fun c => !allowedChar c) with
  | some c => .error (.invalidChar c)
  | none =>
    if u.data.count '(' ≠ u.data.count ')' then .error .unbalancedBrackets
    else
      match (letterRuns u.data).find? (fun t => (getSiUnit t).isNone) with
      | some t => .error (.unknownUnit t)
      | none => .ok ()

/-- Exponent map: Python's insertion-ordered dict `token ↦ exponent`
(float exponents modelled as exact rationals). -/
abbrev ExpMap := List (String × ℚ)

/-- `unit_exponents[k] *= q`; `none` models Python's `KeyError` for an
absent key. -/
def mulKey : ExpMap → String → ℚ → Option ExpMap
  | [], _, _ => none
  | (k, v) :: r, s, q =>
    if k = s then some ((k, v * q) :: r)
    else
      match mulKey r s q with
      | some r' => some ((k, v) :: r')
      | none => none

/-- Line 114: `{m[0]: 1.0 for m in re.finditer(r"[a-zA-Z]+", unit)}` —
insertion-ordered keys; duplicate tokens keep their first position and the
value 1.0. -/
def initExponents (toks : List String) : ExpMap :=
  toks.foldl (fun m t => if m.any (fun kv => kv.1 == t) then m else m ++ [(t, 1)]) []

/-- Number of leading spaces. -/
def spaceRun (l : List Char) : Nat :=
  (l.takeWhile (fun c => c == ' ')).length

/-- Lookahead `(?=[^/*])`: a next character exists and is not `/` or `*`. -/
def aheadOk : List Char → Bool
  | [] => false
  | d :: _ => d != '/' && d != '*'

/-- Line 116: `re.sub(r"(?<=[^/*])\s+(?=[^/*])", "*", unit)` with Python's
left-to-right scan and backtracking: a maximal space run is replaced whole
when the character after it satisfies the lookahead; otherwise, if the run
has length ≥ 2, all but its last space are replaced (the last space itself
satisfies the lookahead); otherwise there is no match at this position.
`prev` is the subject-string character before the current position (the
lookbehind).  After validation the only whitespace a unit string can contain
is `' '`.  Each step consumes at least one character, so `fuel = length + 1`
makes the `0` case unreachable. -/
def normSub : Nat → Option Char → List Char → List Char
  | 0, _, l => l
  | _ + 1, _, [] => []
  | fuel + 1, prev, c :: cs =>
    let behindOk : Bool :=
      match prev with
      | some p => p != '/' && p != '*'
      | none => false
    if c = ' ' ∧ behindOk then
      let n := spaceRun (c :: cs)
      let rest := (c :: cs).drop n
      if aheadOk rest then '*' :: normSub fuel (some ' ') rest
      else if 2 ≤ n then '*' :: normSub fuel (some ' ') (' ' :: rest)
      else ' ' :: normSub fuel (some ' ') cs
    else c :: normSub fuel (some c) cs

/-- Line 117: `_unit.replace(" ", "")`. -/
def removeSpaces (l : List Char) : List Char :=
  l.filter (fun c => c != ' ')

/-- Digit string to the exact value of Python's `float(...)` of it. -/
def digitsToNat (l : List Char) : Nat :=
  l.foldl (fun a c => 10 * a + (c.toNat - '0'.toNat)) 0

/-- `re.match(r"([0-9]+/[0-9]+|[0-9]+)", s)`: leading digits, preferring the
fraction alternative and falling back to the bare integer when no digits
follow the `/`.  Returns (numerator, optional denominator) and the rest of
the string after the match; `none` when the match fails. -/
def matchNumber (l : List Char) : Option ((Nat × Option Nat) × List Char) :=
  let d1 := l.takeWhile isDigitChar
  if d1.isEmpty then none
  else
    let r1 := l.dropWhile isDigitChar
    match r1 with
    | '/' :: r2 =>
      let d2 := r2.takeWhile isDigitChar
      if d2.isEmpty then some ((digitsToNat d1, none), r1)
      else some ((digitsToNat d1, some (digitsToNat d2)), r2.dropWhile isDigitChar)
    | _ => some ((digitsToNat d1, none), r1)

/-- `float(num)` resp. `float(num) / float(denom)`; dividing by the literal
`0` raises `ZeroDivisionError`. -/
def numValue : Nat × Option Nat → Except UErr ℚ
  | (n, none) => .ok (n : ℚ)
  | (n, some d) => if d = 0 then .error .zeroDivisionError else .ok ((n : ℚ) / (d : ℚ))

/-- Split a string at its first `(` or `)`. -/
def splitAtParen : List Char → Option (List Char × Char × List Char)
  | [] => none
  | c :: cs =>
    if c = '(' ∨ c = ')' then some ([], c, cs)
    else
      match splitAtParen cs with
      | some (a, p, b) => some (c :: a, p, b)
      | none => none

/-- `re.search(r"\([^()]*\)", s)`: the leftmost `(` whose next parenthesis
is a `)`; returns (text before `(`, bracket content, text after `)`). -/
def findBracket : List Char → Option (List Char × List Char × List Char)
  | [] => none
  | c :: cs =>
    if c = '(' then
      match splitAtParen cs with
      | some (content, ')', post) => some ([], content, post)
      | _ =>
        match findBracket cs with
        | some (pre, ct, post) => some (c :: pre, ct, post)
        | none => none
    else
      match findBracket cs with
      | some (pre, ct, post) => some (c :: pre, ct, post)
      | none => none

/-- Lines 141-142: `unit_exponents[tok] *= exponent` for every letter run of
the bracket content; a missing dict key is a `KeyError`. -/
def applyExponent (q : ℚ) : ExpMap → List String → Except UErr ExpMap
  | m, [] => .ok m
  | m, t :: ts =>
    match mulKey m t q with
    | some m' => applyExponent q m' ts
    | none => .error (.keyError t)

/-- Lines 124-133: the exponent following a bracket group.  When the text
after `)` starts with `^`, parse the `<int or int/int>` operand (`None[0]`
`TypeError` when it is missing, `ZeroDivisionError` on `/0`) and drop the
consumed characters; otherwise the exponent stays 1.0. -/
def bracketExponent : List Char → Except UErr (ℚ × List Char)
  | '^' :: p2 =>
    match matchNumber p2 with
    | none => .error .typeErrorNoneSubscript
    | some (nd, rest) =>
      match numValue nd with
      | .error e => .error e
      | .ok q => .ok (q, rest)
  | post => .ok (1, post)

/-- The `while` loop of lines 120-144: repeatedly take the leftmost innermost
bracket; consume a following `^<int or int/int>` into an exponent (crashing
like `res[0]` on `None` when the operand is missing); a `/` directly before
the group flips the exponent's sign and is rewritten to `*`; multiply the
map entry of every letter run inside the bracket; splice the bare content
back and repeat.  Every iteration drops both parentheses, so the string
strictly shrinks and `fuel = length` makes the `0` case unreachable. -/
def bracketLoop : Nat → ExpMap → List Char → Except UErr (ExpMap × List Char)
  | 0, m, l => .ok (m, l)
  | fuel + 1, m, l =>
    match findBracket l with
    | none => .ok (m, l)
    | some (pre, content, post) =>
      match bracketExponent post with
      | .error e => .error e
      | .ok (e1, post') =>
        let divided : Bool := pre.getLast? == some '/'
        let pre' := if divided then pre.dropLast ++ ['*'] else pre
        let e2 := if divided then -e1 else e1
        match applyExponent e2 m (letterRuns content) with
        | .error e => .error e
        | .ok m' => bracketLoop fuel m' (pre' ++ content ++ post')

/-- Lines 147-155, `re.finditer(r"[a-zA-Z]+\^", _unit)`: for each maximal
letter run directly followed by `^`, parse the exponent from the text after
the `^` (`TypeError` from `None[0]` when there is none, `ZeroDivisionError`
on a `/0` fraction, `KeyError` when the run is not a map key) and multiply
the run's entry.  `cur` is the reversed letter run being scanned; as with
`finditer`, scanning resumes directly after the `^`. -/
def expLoop (m : ExpMap) (cur : List Char) : List Char → Except UErr ExpMap
  | [] => .ok m
  | c :: cs =>
    if isLetterChar c then expLoop m (c :: cur) cs
    else if c = '^' ∧ cur ≠ [] then
      match matchNumber cs with
      | none => .error .typeErrorNoneSubscript
      | some (nd, _) =>
        match numValue nd with
        | .error e => .error e
        | .ok q =>
          match mulKey m ⟨cur.reverse⟩ q with
          | some m' => expLoop m' [] cs
          | none => .error (.keyError ⟨cur.reverse⟩)
    else expLoop m [] cs

/-- Lines 158-160, `re.finditer(r"/[a-zA-Z]+", _unit)`: negate the map entry
of each letter run directly preceded by `/`.  `pending = some cur` while
scanning the letter run that follows a slash. -/
def divLoop : ExpMap → Option (List Char) → List Char → Except UErr ExpMap
  | m, some cur, [] =>
    if cur.isEmpty then .ok m
    else
      match mulKey m ⟨cur.reverse⟩ (-1) with
      | some m' => .ok m'
      | none => .error (.keyError ⟨cur.reverse⟩)
  | m, none, [] => .ok m
  | m, some cur, c :: cs =>
    if isLetterChar c then divLoop m (some (c :: cur)) cs
    else if cur.isEmpty then
      if c = '/' then divLoop m (some []) cs else divLoop m none cs
    else
      match mulKey m ⟨cur.reverse⟩ (-1) with
      | some m' => if c = '/' then divLoop m' (some []) cs else divLoop m' none cs
      | none => .error (.keyError ⟨cur.reverse⟩)
  | m, none, c :: cs =>
    if c = '/' then divLoop m (some []) cs else divLoop m none cs

/-- `_get_unit_exponents` (lines 111-162): validate, initialize one entry per
distinct raw letter run, normalize whitespace, fold away brackets, then apply
the top-level exponent and division scans. -/
def getUnitExponents (u : String) : Except UErr ExpMap :=
  match ensureSiUnit u with
  | .error e => .error e
  | .ok _ =>
    let m0 := initExponents (letterRuns u.data)
    let l1 := removeSpaces (normSub (u.data.length + 1) none u.data)
    match bracketLoop l1.length m0 l1 with
    | .error e => .error e
    | .ok (m1, l2) =>
      match expLoop m1 [] l2 with
      | .error e => .error e
      | .ok m2 => divLoop m2 none l2

/-- Lines 77-78: `re.sub("[a-zA-Z]+", lambda res: _get_si_unit(res[0])[0], u)`
— replace every letter run by its base-SI symbol; a failed registry lookup is
the `None[0]` `TypeError`.  `cur` is the reversed run collected so far. -/
def substAux : List Char → List Char → Except UErr (List Char)
  | cur, [] =>
    if cur.isEmpty then .ok []
    else
      match getSiUnit ⟨cur.reverse⟩ with
      | some (b, _) => .ok b.data
      | none => .error .typeErrorNoneSubscript
  | cur, c :: cs =>
    if isLetterChar c then substAux (c :: cur) cs
    else if cur.isEmpty then
      match substAux [] cs with
      | .ok r => .ok (c :: r)
      | .error e => .error e
    else
      match getSiUnit ⟨cur.reverse⟩ with
      | some (b, _) =>
        match substAux [] cs with
        | .ok r => .ok (b.data ++ c :: r)
        | .error e => .error e
      | none => .error .typeErrorNoneSubscript

/-- Lines 75-79 for one argument of `units_compatible`: validate, substitute
every letter run by its base-SI symbol, resolve the substituted string.
This is the base-symbol exponent map that `units_compatible` compares. -/
def substitutedExponents (u : String) : Except UErr ExpMap :=
  match ensureSiUnit u with
  | .error e => .error e
  | .ok _ =>
    match substAux [] u.data with
    | .error e => .error e
    | .ok w => getUnitExponents ⟨w⟩

/-- `units_compatible` (lines 70-86): validate both strings, substitute raw
tokens by base symbols, resolve both substituted strings, then compare map
sizes and per-key exponents (`.get(name, "")` yields a never-equal default
for a missing key). -/
def unitsCompatible (u1 u2 : String) : Except UErr Bool :=
  match ensureSiUnit u1 with
  | .error e => .error e
  | .ok _ =>
  match ensureSiUnit u2 with
  | .error e => .error e
  | .ok _ =>
  match substAux [] u1.data with
  | .error e => .error e
  | .ok w1 =>
  match substAux [] u2.data with
  | .error e => .error e
  | .ok w2 =>
  match getUnitExponents ⟨w1⟩ with
  | .error e => .error e
  | .ok m1 =>
  match getUnitExponents ⟨w2⟩ with
  | .error e => .error e
  | .ok m2 =>
  if m1.length ≠ m2.length then .ok false
  else
    .ok (m1.all fun kv =>
      match plookup m2 kv.1 with
      | some v => v == kv.2
      | none => false)

/-- The module-level `_conversion_factor_cache` dict, threaded explicitly:
insertion-ordered association list keyed by the exact (source, target)
string pair. -/
abbrev Cache := List ((String × String) × ℝ)

/-- `_conversion_factor_cache.get(key, None)`. -/
def lookupCache : Cache → String × String → Option ℝ
  | [], _ => none
  | (k, v) :: r, key => if k = key then some v else lookupCache r key

/-- `key in _conversion_factor_cache`. -/
def containsKey (c : Cache) (key : String × String) : Bool :=
  c.any (fun kv => kv.1 == key)

/-- Lines 98-102: `multiplier *= _get_si_unit(unit)[1] ** exponent` folded
over an exponent map starting from 1.0.  Python's float `**` on the positive
registry multipliers is real exponentiation, modelled by `Real.rpow`; a
failed registry lookup would crash as `None[1]`. -/
noncomputable def multProd (acc : ℝ) : ExpMap → Except UErr ℝ
  | [] => .ok acc
  | (k, e) :: rest =>
    match getSiUnit k with
    | some (_, mult) => multProd (acc * (mult : ℝ) ^ (e : ℝ)) rest
    | none => .error .typeErrorNoneSubscript

/-- Lines 93-102 of `unit_conversion_factor`: the computed value
`multiplier_source / multiplier_target`, before any cache interaction. -/
noncomputable def factorValue (su tu : String) : Except UErr ℝ :=
  match unitsCompatible su tu with
  | .error e => .error e
  | .ok c =>
    if !c then .error .incompatibleUnits
    else
      match getUnitExponents su with
      | .error e => .error e
      | .ok se =>
        match getUnitExponents tu with
        | .error e => .error e
        | .ok te =>
          match multProd 1 se with
          | .error e => .error e
          | .ok ms =>
            match multProd 1 te with
            | .error e => .error e
            | .ok mt => .ok (ms / mt)

/-- Lines 93-108 on a cache miss: compute the factor, store it under the
exact key pair unless that key is already present (line 104), return it. -/
noncomputable def conversionCompute (cache : Cache) (su tu : String) :
    Except UErr (ℝ × Cache) :=
  match factorValue su tu with
  | .error e => .error e
  | .ok v =>
    .ok (v, if containsKey cache (su, tu) then cache else cache ++ [((su, tu), v)])

/-- `unit_conversion_factor` (lines 89-108) with the cache threaded
explicitly.  The walrus `if factor := _conversion_factor_cache.get(...)`
returns a cached value only when it is truthy: a stored 0.0 falls through
to the computation exactly like an absent key. -/
noncomputable def unitConversionFactor (cache : Cache) (su tu : String) :
    Except UErr (ℝ × Cache) :=
  match lookupCache cache (su, tu) with
  | some f => if f = 0 then conversionCompute cache su tu else .ok (f, cache)
  | none => conversionCompute cache su tu

/-- One suffix test of the claim's second resolution stage: a base symbol is
a proper suffix of the token and the nonempty remainder is a recognized
prefix. -/
def prefixedCandidate (u si : String) : Option (String × ℚ) :=
  if si.data.length ≤ u.data.length ∧
      si.data = u.data.drop (u.data.length - si.data.length) ∧ si ≠ u then
    match plookup PREFIX_SI ⟨u.data.take (u.data.length - si.data.length)⟩ with
    | some q => some (si, q)
    | none => none
  else none

/-- The resolution order stated by claim C3 (spec §4.1): exact base-symbol
match with multiplier 1.0 first; then a prefixed suffix match; then the
non-SI table; otherwise not found. -/
def getSiUnitSpec (u : String) : Option (String × ℚ) :=
  if u ∈ UNITS_SI then some (u, 1)
  else
    match firstSome (prefixedCandidate u) UNITS_SI with
    | some r => some r
    | none => plookup NON_SI_MAP u

/-! ### Registry lemmas -/

theorem plookup_mem {β : Type} {l : List (String × β)} {s : String} {v : β}
    (h : plookup l s = some v) : (s, v) ∈ l := by
  induction l with
  | nil => simp [plookup] at h
  | cons kv t ih =>
    obtain ⟨k, w⟩ := kv
    simp only [plookup] at h
    by_cases hk : k = s
    · rw [if_pos hk] at h
      cases h
      subst hk
      simp
    · rw [if_neg hk] at h
      exact List.mem_cons_of_mem _ (ih h)

theorem PREFIX_SI_pos : ∀ kv ∈ PREFIX_SI, (0 : ℚ) < kv.2 := by
  intro kv h
  have h' : kv ∈ [(("f" : String), (1e-15 : ℚ)), ("p", 1e-12), ("n", 1e-9),
      ("mu", 1e-6), ("m", 1e-3), ("c", 1e-2), ("d", 1e-1), ("da", 1e1),
      ("h", 1e2), ("k", 1e3), ("M", 1e6), ("G", 1e9), ("T", 1e12),
      ("P", 1e15)] := h
  fin_cases h' <;> norm_num

theorem NON_SI_MAP_pos : ∀ kv ∈ NON_SI_MAP, (0 : ℚ) < kv.2.2 := by
  intro kv h
  have h' : kv ∈ [(("in" : String), (("m" : String), (0.0254 : ℚ))),
      ("ft", ("m", 0.3048)), ("yd", ("m", 0.9144)), ("mi", ("m", 1609.344)),
      ("gr", ("g", 0.06479891)), ("oz", ("g", 28.3495231)),
      ("qr", ("g", 11339.80925)), ("qtr", ("g", 11339.80925)),
      ("st", ("g", 6350.29318)), ("lb", ("g", 453.59237)),
      ("t", ("g", 907184.74)), ("floz", ("m^3", 2.95735296e-5)),
      ("gi", ("m^3", 1.18294118e-4)), ("pt", ("m^3", 4.73176473e-4)),
      ("qt", ("m^3", 9.46352946e-4)), ("gal", ("m^3", 3.78541178)),
      ("acre", ("m^2", 4046.85642)), ("h", ("s", 3600)),
      ("lightyear", ("m", 9.4605284e15)), ("l", ("m^3", 0.001))] := h
  fin_cases h' <;> norm_num

theorem siCandidate_pos {u si b : String} {q : ℚ}
    (h : siCandidate u si = some (b, q)) : 0 < q := by
  unfold siCandidate at h
  split at h
  · split at h
    · cases h
      norm_num
    · cases hp : plookup PREFIX_SI ⟨u.data.take (u.data.length - si.data.length)⟩ with
      | none => rw [hp] at h; cases h
      | some q' =>
        rw [hp] at h
        cases h
        exact PREFIX_SI_pos _ (plookup_mem hp)
  · cases h

theorem firstSome_siCandidate_pos {l : List String} {u b : String} {q : ℚ}
    (h : firstSome (siCandidate u) l = some (b, q)) : 0 < q := by
  induction l with
  | nil => simp [firstSome] at h
  | cons si t ih =>
    simp only [firstSome] at h
    cases hc : siCandidate u si with
    | none => rw [hc] at h; exact ih h
    | some r =>
      rw [hc] at h
      cases h
      exact siCandidate_pos hc

/-- Every multiplier the registry can return is strictly positive. -/
theorem getSiUnit_pos {u b : String} {q : ℚ}
    (h : getSiUnit u = some (b, q)) : 0 < q := by
  unfold getSiUnit at h
  cases hf : firstSome (siCandidate u) UNITS_SI with
  | some r =>
    rw [hf] at h
    cases h
    exact firstSome_siCandidate_pos hf
  | none =>
    rw [hf] at h
    exact NON_SI_MAP_pos _ (plookup_mem h)

/-! ### Multiplier product lemmas -/

theorem multProd_ok {m : ExpMap} (h : ∀ kv ∈ m, (getSiUnit kv.1).isSome = true) :
    ∀ acc : ℝ, ∃ r, multProd acc m = .ok r := by
  induction m with
  | nil => exact fun acc => ⟨acc, rfl⟩
  | cons kv t ih =>
    obtain ⟨k, e⟩ := kv
    intro acc
    have hk := h (k, e) (by simp)
    cases hgs : getSiUnit k with
    | none => rw [hgs] at hk; simp at hk
    | some be =>
      obtain ⟨b, q⟩ := be
      simp only [multProd, hgs]
      exact ih (fun kv hkv => h kv (List.mem_cons_of_mem _ hkv)) _

theorem multProd_pos {m : ExpMap} {acc r : ℝ} (hacc : 0 < acc)
    (h : multProd acc m = .ok r) : 0 < r := by
  induction m generalizing acc with
  | nil =>
    simp only [multProd] at h
    cases h
    exact hacc
  | cons kv t ih =>
    obtain ⟨k, e⟩ := kv
    simp only [multProd] at h
    cases hgs : getSiUnit k with
    | none => rw [hgs] at h; cases h
    | some be =>
      obtain ⟨b, q⟩ := be
      rw [hgs] at h
      have hq : (0 : ℝ) < (q : ℝ) := by exact_mod_cast getSiUnit_pos hgs
      exact ih (mul_pos hacc (Real.rpow_pos_of_pos hq _)) h

/-! ### Key-set preservation: every rewriting pass of `_get_unit_exponents`
only multiplies values of existing dict entries, so the key list of the
result is the key list of the initial dict. -/

theorem mulKey_keys {m m' : ExpMap} {s : String} {q : ℚ}
    (h : mulKey m s q = some m') : m'.map Prod.fst = m.map Prod.fst := by
  induction m generalizing m' with
  | nil => simp [mulKey] at h
  | cons kv t ih =>
    obtain ⟨k, v⟩ := kv
    simp only [mulKey] at h
    by_cases hk : k = s
    · rw [if_pos hk] at h
      cases h
      simp
    · rw [if_neg hk] at h
      cases hm : mulKey t s q with
      | none => rw [hm] at h; cases h
      | some t' =>
        rw [hm] at h
        cases h
        simp [ih hm]

theorem applyExponent_keys {q : ℚ} {toks : List String} {m m' : ExpMap}
    (h : applyExponent q m toks = .ok m') : m'.map Prod.fst = m.map Prod.fst := by
  induction toks generalizing m with
  | nil =>
    simp only [applyExponent] at h
    cases h
    rfl
  | cons t ts ih =>
    simp only [applyExponent] at h
    cases hm : mulKey m t q with
    | none => rw [hm] at h; cases h
    | some m₁ =>
      rw [hm] at h
      rw [ih h, mulKey_keys hm]

theorem bracketLoop_keys {fuel : Nat} {m m' : ExpMap} {l l' : List Char}
    (h : bracketLoop fuel m l = .ok (m', l')) :
    m'.map Prod.fst = m.map Prod.fst := by
  induction fuel generalizing m l with
  | zero =>
    simp only [bracketLoop] at h
    cases h
    rfl
  | succ fuel ih =>
    simp only [bracketLoop] at h
    cases hb : findBracket l with
    | none =>
      simp only [hb] at h
      cases h
      rfl
    | some pcp =>
      obtain ⟨pre, content, post⟩ := pcp
      simp only [hb] at h
      cases hstep : bracketExponent post with
      | error e => simp only [hstep] at h; cases h
      | ok ep =>
        obtain ⟨e1, post'⟩ := ep
        simp only [hstep] at h
        cases ha : applyExponent (if (pre.getLast? == some '/') = true then -e1 else e1)
            m (letterRuns content) with
        | error e => simp only [ha] at h; cases h
        | ok m₁ =>
          simp only [ha] at h
          rw [ih h, applyExponent_keys ha]

theorem expLoop_keys {l : List Char} {m m' : ExpMap} {cur : List Char}
    (h : expLoop m cur l = .ok m') : m'.map Prod.fst = m.map Prod.fst := by
  induction l generalizing m cur with
  | nil =>
    simp only [expLoop] at h
    cases h
    rfl
  | cons c cs ih =>
    simp only [expLoop] at h
    by_cases hc : isLetterChar c = true
    · rw [if_pos hc] at h
      exact ih h
    · rw [if_neg hc] at h
      by_cases hcar : c = '^' ∧ cur ≠ []
      · rw [if_pos hcar] at h
        cases hmn : matchNumber cs with
        | none => simp only [hmn] at h; cases h
        | some ndr =>
          obtain ⟨nd, rest⟩ := ndr
          simp only [hmn] at h
          cases hnv : numValue nd with
          | error e => simp only [hnv] at h; cases h
          | ok q =>
            simp only [hnv] at h
            cases hmk : mulKey m ⟨cur.reverse⟩ q with
            | none => simp only [hmk] at h; cases h
            | some m₁ =>
              simp only [hmk] at h
              rw [ih h, mulKey_keys hmk]
      · rw [if_neg hcar] at h
        exact ih h

theorem divLoop_keys {l : List Char} {m m' : ExpMap} {pending : Option (List Char)}
    (h : divLoop m pending l = .ok m') : m'.map Prod.fst = m.map Prod.fst := by
  induction l generalizing m pending with
  | nil =>
    cases pending with
    | none =>
      simp only [divLoop] at h
      cases h
      rfl
    | some cur =>
      simp only [divLoop] at h
      by_cases hcur : cur.isEmpty = true
      · rw [if_pos hcur] at h
        cases h
        rfl
      · rw [if_neg hcur] at h
        cases hmk : mulKey m ⟨cur.reverse⟩ (-1) with
        | none => simp only [hmk] at h; cases h
        | some m₁ =>
          simp only [hmk] at h
          cases h
          exact mulKey_keys hmk
  | cons c cs ih =>
    cases pending with
    | none =>
      simp only [divLoop] at h
      by_cases hc : c = '/'
      · rw [if_pos hc] at h
        exact ih h
      · rw [if_neg hc] at h
        exact ih h
    | some cur =>
      simp only [divLoop] at h
      by_cases hl : isLetterChar c = true
      · rw [if_pos hl] at h
        exact ih h
      · rw [if_neg hl] at h
        by_cases hcur : cur.isEmpty = true
        · rw [if_pos hcur] at h
          by_cases hc : c = '/'
          · rw [if_pos hc] at h
            exact ih h
          · rw [if_neg hc] at h
            exact ih h
        · rw [if_neg hcur] at h
          cases hmk : mulKey m ⟨cur.reverse⟩ (-1) with
          | none => simp only [hmk] at h; cases h
          | some m₁ =>
            simp only [hmk] at h
            by_cases hc : c = '/'
            · rw [if_pos hc] at h
              rw [ih h, mulKey_keys hmk]
            · rw [if_neg hc] at h
              rw [ih h, mulKey_keys hmk]

theorem getUnitExponents_keys {u : String} {m : ExpMap}
    (h : getUnitExponents u = .ok m) :
    m.map Prod.fst = (initExponents (letterRuns u.data)).map Prod.fst := by
  unfold getUnitExponents at h
  cases hens : ensureSiUnit u with
  | error e => simp only [hens] at h; cases h
  | ok _ =>
    simp only [hens] at h
    cases hbr : bracketLoop (removeSpaces (normSub (u.data.length + 1) none u.data)).length
        (initExponents (letterRuns u.data))
        (removeSpaces (normSub (u.data.length + 1) none u.data)) with
    | error e => simp only [hbr] at h; cases h
    | ok ml =>
      obtain ⟨m1, l2⟩ := ml
      simp only [hbr] at h
      cases hex : expLoop m1 [] l2 with
      | error e => simp only [hex] at h; cases h
      | ok m2 =>
        simp only [hex] at h
        rw [divLoop_keys h, expLoop_keys hex, bracketLoop_keys hbr]

theorem getUnitExponents_ok_ensure {u : String} {m : ExpMap}
    (h : getUnitExponents u = .ok m) : ensureSiUnit u = .ok () := by
  unfold getUnitExponents at h
  cases hens : ensureSiUnit u with
  | error e => simp only [hens] at h; cases h
  | ok v =>
    cases v
    rfl

theorem ensureSiUnit_ok_resolvable {u : String} (h : ensureSiUnit u = .ok ()) :
    ∀ t ∈ letterRuns u.data, (getSiUnit t).isSome = true := by
  unfold ensureSiUnit at h
  cases hf : u.data.find? (fun c => !allowedChar c) with
  | some c => simp only [hf] at h; cases h
  | none =>
    simp only [hf] at h
    split at h
    · cases h
    · cases hr : (letterRuns u.data).find? (fun t => (getSiUnit t).isNone) with
      | some t => simp only [hr] at h; cases h
      | none =>
        intro t ht
        have := List.find?_eq_none.mp hr t ht
        simpa [Option.isNone_iff_eq_none, ← Option.ne_none_iff_isSome] using this

/-- The fold of line 114 keeps its accumulated key list duplicate-free. -/
theorem initExponents_fold_nodup (toks : List String) (acc : ExpMap)
    (hacc : (acc.map Prod.fst).Nodup) :
    ((toks.foldl
        (fun m t => if m.any (fun kv => kv.1 == t) then m else m ++ [(t, 1)]) acc).map
      Prod.fst).Nodup := by
  induction toks generalizing acc with
  | nil => exact hacc
  | cons t ts ih =>
    simp only [List.foldl_cons]
    by_cases hmem : acc.any (fun kv => kv.1 == t) = true
    · rw [if_pos hmem]
      exact ih acc hacc
    · rw [if_neg hmem]
      refine ih _ ?_
      rw [List.map_append]
      simp only [List.map_cons, List.map_nil]
      rw [List.nodup_append]
      refine ⟨hacc, List.nodup_singleton t, ?_⟩
      intro a ha hb
      rcases List.mem_singleton.mp hb with rfl
      obtain ⟨kv, hkv, hfst⟩ := List.mem_map.mp ha
      exact hmem (List.any_eq_true.mpr ⟨kv, hkv, by simp [hfst]⟩)

theorem initExponents_nodup (toks : List String) :
    ((initExponents toks).map Prod.fst).Nodup :=
  initExponents_fold_nodup toks [] (by simp)

/-- Keys produced by the fold of line 114 come from the token list (or the
starting accumulator). -/
theorem initExponents_fold_subset (toks : List String) (acc : ExpMap) :
    ∀ k ∈ (toks.foldl
        (fun m t => if m.any (fun kv => kv.1 == t) then m else m ++ [(t, 1)]) acc).map
      Prod.fst, k ∈ acc.map Prod.fst ∨ k ∈ toks := by
  induction toks generalizing acc with
  | nil => exact fun k hk => Or.inl hk
  | cons t ts ih =>
    intro k hk
    simp only [List.foldl_cons] at hk
    by_cases hmem : acc.any (fun kv => kv.1 == t) = true
    · rw [if_pos hmem] at hk
      rcases ih acc k hk with h | h
      · exact Or.inl h
      · exact Or.inr (List.mem_cons_of_mem _ h)
    · rw [if_neg hmem] at hk
      rcases ih _ k hk with h | h
      · rw [List.map_append] at h
        rcases List.mem_append.mp h with h | h
        · exact Or.inl h
        · simp only [List.map_cons, List.map_nil, List.mem_singleton] at h
          exact Or.inr (h ▸ List.mem_cons_self t ts)
      · exact Or.inr (List.mem_cons_of_mem _ h)

theorem initExponents_subset (toks : List String) :
    ∀ k ∈ (initExponents toks).map Prod.fst, k ∈ toks := by
  intro k hk
  rcases initExponents_fold_subset toks [] k hk with h | h
  · simp at h
  · exact h

/-- With duplicate-free keys, looking an entry's own key up finds exactly
that entry. -/
theorem plookup_self {m : ExpMap} (hnd : (m.map Prod.fst).Nodup) :
    ∀ kv ∈ m, plookup m kv.1 = some kv.2 := by
  induction m with
  | nil => simp
  | cons hd t ih =>
    obtain ⟨k, v⟩ := hd
    intro kv hkv
    simp only [List.map_cons, List.nodup_cons] at hnd
    rcases List.mem_cons.mp hkv with rfl | hkv
    · simp [plookup]
    · have hk : k ≠ kv.1 := by
        intro he
        exact hnd.1 (he ▸ List.mem_map.mpr ⟨kv, hkv, rfl⟩)
      simp only [plookup, if_neg hk]
      exact ih hnd.2 kv hkv

/-- The per-key comparison loop of lines 83-85 run on a map against itself
succeeds. -/
theorem selfAll {m : ExpMap} (hnd : (m.map Prod.fst).Nodup) :
    (m.all fun kv =>
      match plookup m kv.1 with
      | some v => v == kv.2
      | none => false) = true := by
  rw [List.all_eq_true]
  intro kv hkv
  rw [plookup_self hnd kv hkv]
  simp

/-- `units_compatible(u, u)` returns `True` whenever the substituted
resolution of `u` succeeds. -/
theorem unitsCompatible_self {u : String} {m : ExpMap}
    (h : substitutedExponents u = .ok m) : unitsCompatible u u = .ok true := by
  unfold substitutedExponents at h
  cases hens : ensureSiUnit u with
  | error e => simp only [hens] at h; cases h
  | ok v =>
    cases v
    simp only [hens] at h
    cases hsub : substAux [] u.data with
    | error e => simp only [hsub] at h; cases h
    | ok w =>
      simp only [hsub] at h
      have hnd : (m.map Prod.fst).Nodup := by
        rw [getUnitExponents_keys h]
        exact initExponents_nodup _
      unfold unitsCompatible
      simp only [hens, hsub, h]
      rw [if_neg (by simp)]
      rw [selfAll hnd]

/-! ### Cache lemmas -/

theorem lookupCache_mem {c : Cache} {k : String × String} {f : ℝ}
    (h : lookupCache c k = some f) : (k, f) ∈ c := by
  induction c with
  | nil => simp [lookupCache] at h
  | cons kv t ih =>
    obtain ⟨k', v⟩ := kv
    simp only [lookupCache] at h
    by_cases hk : k' = k
    · rw [if_pos hk] at h
      cases h
      subst hk
      simp
    · rw [if_neg hk] at h
      exact List.mem_cons_of_mem _ (ih h)

theorem containsKey_of_lookup_some {c : Cache} {k : String × String} {f : ℝ}
    (h : lookupCache c k = some f) : containsKey c k = true := by
  unfold containsKey
  exact List.any_eq_true.mpr ⟨(k, f), lookupCache_mem h, by simp⟩

theorem containsKey_false_of_lookup_none {c : Cache} {k : String × String}
    (h : lookupCache c k = none) : containsKey c k = false := by
  induction c with
  | nil => rfl
  | cons kv t ih =>
    obtain ⟨k', v⟩ := kv
    simp only [lookupCache] at h
    by_cases hk : k' = k
    · rw [if_pos hk] at h
      cases h
    · rw [if_neg hk] at h
      unfold containsKey at ih ⊢
      simp only [List.any_cons, ih h, Bool.or_false]
      simpa using hk

theorem lookupCache_append_self {c : Cache} {k : String × String} {x : ℝ}
    (h : containsKey c k = false) :
    lookupCache (c ++ [(k, x)]) k = some x := by
  induction c with
  | nil => simp [lookupCache]
  | cons kv t ih =>
    obtain ⟨k', v⟩ := kv
    unfold containsKey at h
    simp only [List.any_cons, Bool.or_eq_false_iff] at h
    simp only [List.cons_append, lookupCache]
    rw [if_neg (by simpa using h.1)]
    exact ih (by unfold containsKey; exact h.2)

theorem lookupCache_append_ne {c : Cache} {k key : String × String} {x : ℝ}
    (h : k ≠ key) :
    lookupCache (c ++ [(key, x)]) k = lookupCache c k := by
  induction c with
  | nil => simp [lookupCache, if_neg (Ne.symm h)]
  | cons kv t ih =>
    obtain ⟨k', v⟩ := kv
    simp only [List.cons_append, lookupCache]
    by_cases hk : k' = k
    · rw [if_pos hk, if_pos hk]
    · rw [if_neg hk, if_neg hk]
      exact ih

/-! ### The registry resolution order stated by the spec (claim C3) -/

theorem firstSome_congr {α β : Type} (f g : α → Option β) (l : List α)
    (h : ∀ a ∈ l, f a = g a) : firstSome f l = firstSome g l := by
  induction l with
  | nil => rfl
  | cons a t ih =>
    simp only [firstSome]
    rw [h a (List.mem_cons_self a t)]
    cases g a with
    | some b => rfl
    | none => exact ih fun a ha => h a (List.mem_cons_of_mem _ ha)

theorem siCandidate_eq_prefixed (u si : String) (hne : si ≠ u) :
    siCandidate u si = prefixedCandidate u si := by
  unfold siCandidate prefixedCandidate
  by_cases hsuf : si.data.length ≤ u.data.length ∧
      si.data = u.data.drop (u.data.length - si.data.length)
  · have hc : si.data.length ≤ u.data.length ∧
        si.data = u.data.drop (u.data.length - si.data.length) ∧ si ≠ u :=
      ⟨hsuf.1, hsuf.2, hne⟩
    have hlen : u.data.length ≠ si.data.length := by
      intro hl
      apply hne
      have hdata : si.data = u.data := by
        have h2 := hsuf.2
        rw [hl, Nat.sub_self, List.drop_zero] at h2
        exact h2
      obtain ⟨sd⟩ := si
      obtain ⟨ud⟩ := u
      exact congrArg String.mk hdata
    rw [if_pos hsuf, if_neg hlen, if_pos hc]
  · rw [if_neg hsuf, if_neg (fun hc => hsuf ⟨hc.1, hc.2.1⟩)]

/-- Every maximal-letter-run token of an all-letter nonempty string is the
whole string. -/
theorem letterRunsAux_all_letters (l : List Char) :
    ∀ cur : List Char, (∀ c ∈ l, isLetterChar c = true) →
      cur.reverse ++ l ≠ [] → letterRunsAux cur l = [⟨cur.reverse ++ l⟩] := by
  induction l with
  | nil =>
    intro cur _ hne
    rw [List.append_nil] at hne ⊢
    have hcur : cur.isEmpty = false := by
      cases cur with
      | nil => simp at hne
      | cons a t => rfl
    simp [letterRunsAux, hcur]
  | cons c cs ih =>
    intro cur h hne
    simp only [letterRunsAux]
    rw [if_pos (h c (List.mem_cons_self c cs))]
    have := ih (c :: cur) (fun d hd => h d (List.mem_cons_of_mem _ hd)) (by simp)
    rw [this, List.reverse_cons, List.append_assoc, List.singleton_append]

theorem letterRuns_all_letters {l : List Char} (hne : l ≠ [])
    (h : ∀ c ∈ l, isLetterChar c = true) : letterRuns l = [⟨l⟩] := by
  unfold letterRuns
  simpa using letterRunsAux_all_letters l [] h (by simpa using hne)

/-- An unresolvable all-letter token is rejected by validation with the
unknown-unit error naming it. -/
theorem ensure_unknown_of_letter_token {u : String} (hne : u ≠ "")
    (hall : u.data.all isLetterChar = true) (hnone : getSiUnit u = none) :
    ensureSiUnit u = .error (.unknownUnit u) := by
  have hdne : u.data ≠ [] := by
    intro hd
    apply hne
    obtain ⟨ud⟩ := u
    exact congrArg String.mk hd
  have hruns : letterRuns u.data = [u] := by
    rw [letterRuns_all_letters hdne (List.all_eq_true.mp hall)]
  unfold ensureSiUnit
  have hf : u.data.find? (fun c => !allowedChar c) = none := by
    rw [List.find?_eq_none]
    intro c hc
    have hlet := List.all_eq_true.mp hall c hc
    simp [allowedChar, hlet]
  rw [hf]
  have h1 : u.data.count '(' = 0 := by
    rw [List.count_eq_zero]
    intro hc
    exact absurd (List.all_eq_true.mp hall _ hc) (by decide)
  have h2 : u.data.count ')' = 0 := by
    rw [List.count_eq_zero]
    intro hc
    exact absurd (List.all_eq_true.mp hall _ hc) (by decide)
  rw [if_neg (by rw [h1, h2]; exact fun hc => hc rfl)]
  rw [hruns]
  simp [List.find?, hnone]

/-! ### Claim theorems -/

/-- C1: the claim says the base-symbol exponent map of `"km*m"` merges the
two spellings of `m` additively into `{m: 2}`.  The code instead collapses
them in the dict comprehension of line 114 (after the substitution of line
77 both raw tokens read `"m"`), leaving a single entry with exponent 1.0 —
so `units_compatible("km*m", "m")` even returns `True`, contradicting its
own docstring ("Return True if units can be converted to one another"). -/
theorem c1_duplicate_base_tokens_collapse :
    substitutedExponents "km*m" = .ok [("m", 1)] ∧
    unitsCompatible "km*m" "m" = .ok true := by
  constructor <;> with_unfolding_all rfl

/-- C2: `unit_conversion_factor("m/s^2", "km/h^2")` (fresh cache) equals
`(1/1000) / (1/3600)^2`, i.e. 12960.0: the trailing `/` binds the whole
exponentiated token, `km` resolves through the prefix table and `h` through
the non-SI table, and the factor is the ratio of the products of per-token
multipliers raised to their signed exponents. -/
theorem c2_compound_expression_factor :
    (unitConversionFactor [] "m/s^2" "km/h^2").map Prod.fst
      = .ok (((1 : ℝ) / 1000) / ((1 / 3600) ^ 2)) ∧
    ((1 : ℝ) / 1000) / ((1 / 3600) ^ 2) = 12960 := by
  have e1 : ((1 : ℚ) : ℝ) = 1 := by norm_num
  have e2 : ((-2 : ℚ) : ℝ) = ((-2 : ℤ) : ℝ) := by norm_num
  have e3 : ((1e3 : ℚ) : ℝ) = 1000 := by norm_num
  have e4 : ((3600 : ℚ) : ℝ) = 3600 := by norm_num
  constructor
  · have h : (unitConversionFactor [] "m/s^2" "km/h^2").map Prod.fst
        = .ok ((1 * ((1 : ℚ) : ℝ) ^ (((1 : ℚ)) : ℝ) * ((1 : ℚ) : ℝ) ^ (((-2 : ℚ)) : ℝ)) /
               (1 * ((1e3 : ℚ) : ℝ) ^ (((1 : ℚ)) : ℝ) *
                ((3600 : ℚ) : ℝ) ^ (((-2 : ℚ)) : ℝ))) := by
      with_unfolding_all rfl
    rw [h, e1, e2, e3, e4, Real.one_rpow, Real.one_rpow, Real.rpow_one,
      Real.rpow_intCast]
    simp only [Except.ok.injEq]
    norm_num
  · norm_num

/-- C4: the claim says a `^` without a valid operand fails with a typed
malformed-exponent error.  The code instead crashes with an untyped Python
`TypeError` (`None[0]` in `_get_unit_exponents`, lines 150 resp. 127-128) on
inputs such as `"m^"` and `"m^/s"`, which pass validation. -/
theorem c4_malformed_exponent_crash :
    ensureSiUnit "m^" = .ok () ∧ ensureSiUnit "m^/s" = .ok () ∧
    unitsCompatible "m^" "m" = .error .typeErrorNoneSubscript ∧
    (unitConversionFactor [] "m^/s" "m/s").map Prod.fst
      = .error .typeErrorNoneSubscript := by
  refine ⟨?_, ?_, ?_, ?_⟩ <;> with_unfolding_all rfl

/-- C8: `"m"` and `"s"` are individually valid, `units_compatible("m", "s")`
returns `False`, and `unit_conversion_factor("m", "s")` raises the
incompatible-units error. -/
theorem c8_incompatible_meter_second :
    ensureSiUnit "m" = .ok () ∧ ensureSiUnit "s" = .ok () ∧
    unitsCompatible "m" "s" = .ok false ∧
    (unitConversionFactor [] "m" "s").map Prod.fst
      = .error .incompatibleUnits := by
  refine ⟨?_, ?_, ?_, ?_⟩ <;> with_unfolding_all rfl

/-- C6 counterexample: `"m^"` passes validation, yet
`unit_conversion_factor("m^", "m^")` does not return 1.0 — it crashes with
the `None[0]` `TypeError`, refuting the claim for validated inputs. -/
theorem c6_counterexample_validated_input_crash :
    ensureSiUnit "m^" = .ok () ∧
    (unitConversionFactor [] "m^" "m^").map Prod.fst
      = .error .typeErrorNoneSubscript := by
  constructor <;> with_unfolding_all rfl

/-- C6 (amended): for every unit string `u` whose raw and substituted
exponent resolutions both succeed (in particular, every validated string
with well-formed exponent syntax), `unit_conversion_factor(u, u)` on a
fresh cache returns exactly 1.0. -/
theorem c6_self_factor_one (u : String) (em ems : ExpMap)
    (hraw : getUnitExponents u = .ok em)
    (hsub : substitutedExponents u = .ok ems) :
    (unitConversionFactor [] u u).map Prod.fst = .ok 1 := by
  have hcompat := unitsCompatible_self hsub
  have hres : ∀ kv ∈ em, (getSiUnit kv.1).isSome = true := by
    intro kv hkv
    have h1 : kv.1 ∈ em.map Prod.fst := List.mem_map.mpr ⟨kv, hkv, rfl⟩
    rw [getUnitExponents_keys hraw] at h1
    exact ensureSiUnit_ok_resolvable (getUnitExponents_ok_ensure hraw) _
      (initExponents_subset _ _ h1)
  obtain ⟨ms, hms⟩ := multProd_ok hres 1
  have hpos := multProd_pos one_pos hms
  have hfv : factorValue u u = .ok (ms / ms) := by
    unfold factorValue
    simp only [hcompat, hraw, hms, Bool.not_true]
    rw [if_neg Bool.false_ne_true]
  unfold unitConversionFactor conversionCompute
  simp only [lookupCache, hfv, Except.map]
  rw [div_self (ne_of_gt hpos)]

/-- Witness for the amended C6 at `u = "m"`. -/
theorem c6_self_factor_one_witness :
    (unitConversionFactor [] "m" "m").map Prod.fst = .ok 1 :=
  c6_self_factor_one "m" [("m", 1)] [("m", 1)]
    (by with_unfolding_all rfl) (by with_unfolding_all rfl)

/-- C7 counterexample: `"s^"` passes validation, yet
`units_compatible("s^", "s^")` does not return `True` — it crashes with the
`None[0]` `TypeError`, refuting reflexivity on validated inputs. -/
theorem c7_counterexample_validated_input_crash :
    ensureSiUnit "s^" = .ok () ∧
    unitsCompatible "s^" "s^" = .error .typeErrorNoneSubscript := by
  constructor <;> with_unfolding_all rfl

/-- C7 (amended): for every unit string `u` whose substituted exponent
resolution succeeds (in particular, every validated string with well-formed
exponent syntax), `units_compatible(u, u)` returns `True`. -/
theorem c7_self_compatible (u : String) (m : ExpMap)
    (h : substitutedExponents u = .ok m) :
    unitsCompatible u u = .ok true :=
  unitsCompatible_self h

/-- Witness for the amended C7 at `u = "m"`. -/
theorem c7_self_compatible_witness : unitsCompatible "m" "m" = .ok true :=
  c7_self_compatible "m" [("m", 1)] (by with_unfolding_all rfl)

/-- C3: the registry lookup `_get_si_unit` resolves exactly in the claimed
order — exact base-symbol match (multiplier 1.0), then prefixed suffix
match, then the non-SI table — and a letters-only token it cannot resolve
is rejected by validation with the unknown-unit error naming it.  (The
equality with the staged `getSiUnitSpec` also shows the result does not
depend on the iteration order of the Python set literal.) -/
theorem c3_registry_resolution (u : String) :
    getSiUnit u = getSiUnitSpec u ∧
    (u ≠ "" → u.data.all isLetterChar = true → getSiUnit u = none →
      ensureSiUnit u = .error (.unknownUnit u)) := by
  constructor
  · by_cases hu : u ∈ UNITS_SI
    · have hu' : u ∈ (["s", "m", "g", "A", "K", "mol", "cd", "rad", "sr", "Hz",
          "N", "Pa", "J", "W", "C", "V", "F", "Ohm", "S", "Wb", "T", "H",
          "Celsius", "lm", "lx", "Bq", "Gy", "Sv", "kat"] : List String) := hu
      fin_cases hu' <;> with_unfolding_all rfl
    · unfold getSiUnitSpec
      rw [if_neg hu]
      unfold getSiUnit
      rw [firstSome_congr (siCandidate u) (prefixedCandidate u) UNITS_SI
        (fun si hsi => siCandidate_eq_prefixed u si (fun he => hu (he ▸ hsi)))]
  · exact fun hne hall hnone => ensure_unknown_of_letter_token hne hall hnone

/-- Witness for C3 at the letters-only token `"qq"`, which no table
resolves. -/
theorem c3_registry_resolution_witness :
    getSiUnit "qq" = getSiUnitSpec "qq" ∧
    ensureSiUnit "qq" = .error (.unknownUnit "qq") :=
  ⟨(c3_registry_resolution "qq").1,
   (c3_registry_resolution "qq").2 (by decide) (by decide)
     (by with_unfolding_all rfl)⟩

/-- C9: validation rejects, before any exponent math, a string with a
character outside `[A-Za-z0-9/*^()[] ]` (invalid-character error, first such
character), then a string with differing `(` and `)` counts (unbalanced
brackets), then a string with an unresolvable maximal letter run
(unknown-unit error, first such run); `_get_unit_exponents` propagates the
same error before touching any exponent. -/
theorem c9_validation_rejects (s : String) :
    ((∃ c ∈ s.data, allowedChar c = false) →
      ∃ c, allowedChar c = false ∧ ensureSiUnit s = .error (.invalidChar c) ∧
        getUnitExponents s = .error (.invalidChar c)) ∧
    ((∀ c ∈ s.data, allowedChar c = true) →
      s.data.count '(' ≠ s.data.count ')' →
      ensureSiUnit s = .error .unbalancedBrackets ∧
        getUnitExponents s = .error .unbalancedBrackets) ∧
    ((∀ c ∈ s.data, allowedChar c = true) →
      s.data.count '(' = s.data.count ')' →
      (∃ t ∈ letterRuns s.data, getSiUnit t = none) →
      ∃ t, getSiUnit t = none ∧ ensureSiUnit s = .error (.unknownUnit t) ∧
        getUnitExponents s = .error (.unknownUnit t)) := by
  refine ⟨?_, ?_, ?_⟩
  · rintro ⟨c, hc, hbad⟩
    cases hf : s.data.find? (fun c => !allowedChar c) with
    | none =>
      have := List.find?_eq_none.mp hf c hc
      simp [hbad] at this
    | some c' =>
      have hbad' := List.find?_some hf
      have hens : ensureSiUnit s = .error (.invalidChar c') := by
        unfold ensureSiUnit
        rw [hf]
      refine ⟨c', by simpa using hbad', hens, ?_⟩
      unfold getUnitExponents
      simp only [hens]
  · intro hall hcnt
    have hf : s.data.find? (fun c => !allowedChar c) = none := by
      rw [List.find?_eq_none]
      intro c hc
      simp [hall c hc]
    have hens : ensureSiUnit s = .error .unbalancedBrackets := by
      unfold ensureSiUnit
      rw [hf, if_pos hcnt]
    exact ⟨hens, by unfold getUnitExponents; simp only [hens]⟩
  · rintro hall hcnt ⟨t0, ht0, hnone0⟩
    have hf : s.data.find? (fun c => !allowedChar c) = none := by
      rw [List.find?_eq_none]
      intro c hc
      simp [hall c hc]
    cases hr : (letterRuns s.data).find? (fun t => (getSiUnit t).isNone) with
    | none =>
      have := List.find?_eq_none.mp hr t0 ht0
      simp [hnone0] at this
    | some t =>
      have hsome := List.find?_some hr
      have hnone : getSiUnit t = none := by
        simpa [Option.isNone_iff_eq_none] using hsome
      have hens : ensureSiUnit s = .error (.unknownUnit t) := by
        unfold ensureSiUnit
        rw [hf, if_neg (fun hcon => hcon hcnt), hr]
      exact ⟨t, hnone, hens, by unfold getUnitExponents; simp only [hens]⟩

/-- Witness for C9 at the claim's example inputs `"#"`, `"m(("`, `"xyz"`. -/
theorem c9_validation_rejects_witness :
    (∃ c, allowedChar c = false ∧ ensureSiUnit "#" = .error (.invalidChar c) ∧
      getUnitExponents "#" = .error (.invalidChar c)) ∧
    (ensureSiUnit "m((" = .error .unbalancedBrackets ∧
      getUnitExponents "m((" = .error .unbalancedBrackets) ∧
    (∃ t, getSiUnit t = none ∧ ensureSiUnit "xyz" = .error (.unknownUnit t) ∧
      getUnitExponents "xyz" = .error (.unknownUnit t)) :=
  ⟨(c9_validation_rejects "#").1 ⟨'#', by decide, by decide⟩,
   (c9_validation_rejects "m((").2.1 (by decide) (by decide),
   (c9_validation_rejects "xyz").2.2 (by decide) (by decide)
     ⟨"xyz", by decide, by with_unfolding_all rfl⟩⟩

/-- The cache lookup of lines 91-92, spelled as an equation. -/
theorem ucf_eq_of_lookup_some {cache : Cache} {su tu : String} {f : ℝ}
    (hl : lookupCache cache (su, tu) = some f) :
    unitConversionFactor cache su tu =
      if f = 0 then conversionCompute cache su tu else .ok (f, cache) := by
  unfold unitConversionFactor
  rw [hl]

theorem ucf_eq_of_lookup_none {cache : Cache} {su tu : String}
    (hl : lookupCache cache (su, tu) = none) :
    unitConversionFactor cache su tu = conversionCompute cache su tu := by
  unfold unitConversionFactor
  rw [hl]

/-- The store-unless-present step of lines 104-108, spelled as equations. -/
theorem conversionCompute_eq {cache : Cache} {su tu : String} {fv : ℝ}
    (hfv : factorValue su tu = .ok fv) :
    conversionCompute cache su tu =
      .ok (fv, if containsKey cache (su, tu) then cache
               else cache ++ [((su, tu), fv)]) := by
  unfold conversionCompute
  rw [hfv]

theorem conversionCompute_error {cache : Cache} {su tu : String} {e : UErr}
    (hfv : factorValue su tu = .error e) :
    conversionCompute cache su tu = .error e := by
  unfold conversionCompute
  rw [hfv]

/-- C5: the cache is a pure memoization.  If a call on some cache state
returns `(v, cache')`, then calling again with the same two argument strings
on `cache'` returns the identical value `v` (and leaves the cache at
`cache'`), and the entry of every other key pair is unchanged between
`cache` and `cache'`. -/
theorem c5_cache_pure_memoization (cache : Cache) (su tu : String) (v : ℝ)
    (cache' : Cache)
    (h : unitConversionFactor cache su tu = .ok (v, cache')) :
    unitConversionFactor cache' su tu = .ok (v, cache') ∧
    ∀ k, k ≠ (su, tu) → lookupCache cache' k = lookupCache cache k := by
  have h' := h
  cases hl : lookupCache cache (su, tu) with
  | some f =>
    rw [ucf_eq_of_lookup_some hl] at h'
    by_cases hf : f = 0
    · rw [if_pos hf] at h'
      cases hfv : factorValue su tu with
      | error e => rw [conversionCompute_error hfv] at h'; cases h'
      | ok fv =>
        rw [conversionCompute_eq hfv, containsKey_of_lookup_some hl,
          if_pos rfl] at h'
        rw [Except.ok.injEq, Prod.mk.injEq] at h'
        obtain ⟨hv, hcache⟩ := h'
        subst hv
        subst hcache
        exact ⟨h, fun k hk => rfl⟩
    · rw [if_neg hf] at h'
      rw [Except.ok.injEq, Prod.mk.injEq] at h'
      obtain ⟨hv, hcache⟩ := h'
      subst hv
      subst hcache
      exact ⟨h, fun k hk => rfl⟩
  | none =>
    rw [ucf_eq_of_lookup_none hl] at h'
    cases hfv : factorValue su tu with
    | error e => rw [conversionCompute_error hfv] at h'; cases h'
    | ok fv =>
      have hck := containsKey_false_of_lookup_none hl
      rw [conversionCompute_eq hfv, hck, if_neg Bool.false_ne_true] at h'
      rw [Except.ok.injEq, Prod.mk.injEq] at h'
      obtain ⟨hv, hcache⟩ := h'
      subst hv
      subst hcache
      have hl2 : lookupCache (cache ++ [((su, tu), fv)]) (su, tu) = some fv :=
        lookupCache_append_self hck
      refine ⟨?_, fun k hk => lookupCache_append_ne hk⟩
      rw [ucf_eq_of_lookup_some hl2]
      by_cases hfv0 : fv = 0
      · rw [if_pos hfv0, conversionCompute_eq hfv,
          containsKey_of_lookup_some hl2, if_pos rfl]
      · rw [if_neg hfv0]

/-- Evaluation of the conversion of `"m"` to `"m"` from the empty cache:
factor 1.0 is returned and stored under the key `("m", "m")`. -/
theorem ucf_m_m_eval :
    unitConversionFactor [] "m" "m" = .ok (1, [(("m", "m"), 1)]) := by
  have hx : (1 * ((1 : ℚ) : ℝ) ^ (((1 : ℚ)) : ℝ)) /
      (1 * ((1 : ℚ) : ℝ) ^ (((1 : ℚ)) : ℝ)) = 1 := by
    rw [Rat.cast_one, Real.one_rpow]
    norm_num
  have h : unitConversionFactor [] "m" "m"
      = .ok ((1 * ((1 : ℚ) : ℝ) ^ (((1 : ℚ)) : ℝ)) /
               (1 * ((1 : ℚ) : ℝ) ^ (((1 : ℚ)) : ℝ)),
             [(("m", "m"),
               (1 * ((1 : ℚ) : ℝ) ^ (((1 : ℚ)) : ℝ)) /
                 (1 * ((1 : ℚ) : ℝ) ^ (((1 : ℚ)) : ℝ)))]) := by
    with_unfolding_all rfl
  rw [h, hx]

/-- Witness for C5: the first call on the empty cache stored factor 1.0 for
`("m", "m")`; the second call returns the identical value and no other key
is affected. -/
theorem c5_cache_pure_memoization_witness :
    unitConversionFactor [(("m", "m"), 1)] "m" "m"
      = .ok (1, [(("m", "m"), 1)]) ∧
    ∀ k, k ≠ ("m", "m") → lookupCache [(("m", "m"), (1 : ℝ))] k = lookupCache [] k :=
  c5_cache_pure_memoization [] "m" "m" 1 [(("m", "m"), 1)] ucf_m_m_eval

/-- C10: on any cache whose stored values are all strictly positive (as the
empty initial cache is), every value `unit_conversion_factor` returns is
strictly positive and every value in the resulting cache is strictly
positive: all registry multipliers are positive and the factor is a ratio of
products of positive reals raised to real exponents. -/
theorem c10_factor_positive (cache : Cache) (su tu : String) (v : ℝ)
    (cache' : Cache)
    (hc : ∀ kv ∈ cache, 0 < kv.2)
    (h : unitConversionFactor cache su tu = .ok (v, cache')) :
    0 < v ∧ ∀ kv ∈ cache', 0 < kv.2 := by
  have hfv_pos : ∀ fv, factorValue su tu = .ok fv → 0 < fv := by
    intro fv hfv
    unfold factorValue at hfv
    cases hcmp : unitsCompatible su tu with
    | error e => simp only [hcmp] at hfv; cases hfv
    | ok b =>
      simp only [hcmp] at hfv
      by_cases hb : (!b) = true
      · rw [if_pos hb] at hfv
        cases hfv
      · rw [if_neg hb] at hfv
        cases hse : getUnitExponents su with
        | error e => simp only [hse] at hfv; cases hfv
        | ok se =>
          simp only [hse] at hfv
          cases hte : getUnitExponents tu with
          | error e => simp only [hte] at hfv; cases hfv
          | ok te =>
            simp only [hte] at hfv
            cases hms : multProd 1 se with
            | error e => simp only [hms] at hfv; cases hfv
            | ok ms =>
              simp only [hms] at hfv
              cases hmt : multProd 1 te with
              | error e => simp only [hmt] at hfv; cases hfv
              | ok mt =>
                simp only [hmt] at hfv
                cases hfv
                exact div_pos (multProd_pos one_pos hms) (multProd_pos one_pos hmt)
  cases hl : lookupCache cache (su, tu) with
  | some f =>
    rw [ucf_eq_of_lookup_some hl] at h
    by_cases hf : f = 0
    · rw [if_pos hf] at h
      cases hfv : factorValue su tu with
      | error e => rw [conversionCompute_error hfv] at h; cases h
      | ok fv =>
        rw [conversionCompute_eq hfv, containsKey_of_lookup_some hl,
          if_pos rfl] at h
        rw [Except.ok.injEq, Prod.mk.injEq] at h
        obtain ⟨hv, hcache⟩ := h
        subst hv
        subst hcache
        exact ⟨hfv_pos _ hfv, hc⟩
    · rw [if_neg hf] at h
      rw [Except.ok.injEq, Prod.mk.injEq] at h
      obtain ⟨hv, hcache⟩ := h
      subst hv
      subst hcache
      exact ⟨hc _ (lookupCache_mem hl), hc⟩
  | none =>
    rw [ucf_eq_of_lookup_none hl] at h
    cases hfv : factorValue su tu with
    | error e => rw [conversionCompute_error hfv] at h; cases h
    | ok fv =>
      rw [conversionCompute_eq hfv, containsKey_false_of_lookup_none hl,
        if_neg Bool.false_ne_true] at h
      rw [Except.ok.injEq, Prod.mk.injEq] at h
      obtain ⟨hv, hcache⟩ := h
      subst hv
      subst hcache
      refine ⟨hfv_pos _ hfv, ?_⟩
      intro kv hkv
      rcases List.mem_append.mp hkv with hkv | hkv
      · exact hc _ hkv
      · rcases List.mem_singleton.mp hkv with rfl
        exact hfv_pos _ hfv

/-- Witness for C10 on the empty cache at `("m", "m")`. -/
theorem c10_factor_positive_witness :
    (0 : ℝ) < 1 ∧ ∀ kv ∈ [(("m", "m"), (1 : ℝ))], (0 : ℝ) < kv.2 :=
  c10_factor_positive [] "m" "m" 1 [(("m", "m"), 1)] (by simp) ucf_m_m_eval

end UnitConv
